import Mathlib

/-!
# Verification of esp-drum-midi-controller

A shallow embedding of the core of the `esp-drum-midi-controller` firmware
(files `src/trouble_midi.rs`, `src/tasks/gpio.rs`, `src/tasks/ble.rs`),
together with proofs of the specified properties.

Machine integers are modelled as `Nat` with explicit `% 2 ^ w` where
truncation matters.  Fallible operations return `Option` / `Except`.
-/

namespace EspDrumMidi

/-! ## Drum notes (`src/tasks/gpio.rs`, `enum DrumNote`) -/

/-- The pad roles, one per physical pin (`gpio.rs` lines 16-28). -/
inductive DrumNote where
  | BassDrum
  | Snare
  | ClosedHiHat
  | PedalHiHat
  | OpenHiHat
  | FloorTom
  | LowTom
  | HighTom
  | CrashCymbal1
  | CrashCymbal2
  | RideCymbal
deriving DecidableEq, Repr

/-- The `#[repr(u8)]` discriminants of `DrumNote` (`gpio.rs` lines 16-28);
`From<DrumNote> for Note` uses exactly this value (`gpio.rs` lines 30-34). -/
def DrumNote.toU8 : DrumNote → Nat
  | .BassDrum => 36
  | .Snare => 38
  | .ClosedHiHat => 42
  | .PedalHiHat => 44
  | .OpenHiHat => 46
  | .FloorTom => 43
  | .LowTom => 45
  | .HighTom => 48
  | .CrashCymbal1 => 49
  | .CrashCymbal2 => 57
  | .RideCymbal => 51

/-! ## MIDI messages and their wire rendering

Modelled from the spec: the firmware consumes `midi_types::MidiMessage` and the
external rendering capability `midi_convert::render_slice::MidiRenderSlice`
("external rendering capability consumed, not reimplemented here", spec §4.4);
neither crate is part of this repository.  A message renders to its standard
MIDI wire bytes: a status byte (`0x90 | channel` for Note-On, spec §6),
followed by the data bytes. -/

/-- The `midi_types::MidiMessage` enumeration.  Channels, notes and 7/14-bit
values are carried as `Nat`; the wrapper types' range restrictions are applied
by masking in `renderBytes`. -/
inductive MidiMessage where
  | noteOff (channel note velocity : Nat)
  | noteOn (channel note velocity : Nat)
  | keyPressure (channel note value : Nat)
  | controlChange (channel control value : Nat)
  | programChange (channel program : Nat)
  | channelPressure (channel value : Nat)
  | pitchBendChange (channel value : Nat)
  | quarterFrame (value : Nat)
  | songPositionPointer (value : Nat)
  | songSelect (value : Nat)
  | tuneRequest
  | timingClock
  | start
  | continueMsg
  | stop
  | activeSensing
  | reset
deriving DecidableEq, Repr

/-- Modelled from the spec: the status+data bytes produced by
`MidiMessage::render_slice` (standard MIDI rendering; for a Note-On the status
byte is `0x90 | channel` followed by note number and velocity, spec §6). -/
def MidiMessage.renderBytes : MidiMessage → List Nat
  | .noteOff c n v => [0x80 ||| (c &&& 0xF), n &&& 0x7F, v &&& 0x7F]
  | .noteOn c n v => [0x90 ||| (c &&& 0xF), n &&& 0x7F, v &&& 0x7F]
  | .keyPressure c n v => [0xA0 ||| (c &&& 0xF), n &&& 0x7F, v &&& 0x7F]
  | .controlChange c k v => [0xB0 ||| (c &&& 0xF), k &&& 0x7F, v &&& 0x7F]
  | .programChange c p => [0xC0 ||| (c &&& 0xF), p &&& 0x7F]
  | .channelPressure c v => [0xD0 ||| (c &&& 0xF), v &&& 0x7F]
  | .pitchBendChange c v => [0xE0 ||| (c &&& 0xF), v &&& 0x7F, (v >>> 7) &&& 0x7F]
  | .quarterFrame v => [0xF1, v &&& 0x7F]
  | .songPositionPointer v => [0xF2, v &&& 0x7F, (v >>> 7) &&& 0x7F]
  | .songSelect v => [0xF3, v &&& 0x7F]
  | .tuneRequest => [0xF6]
  | .timingClock => [0xF8]
  | .start => [0xFA]
  | .continueMsg => [0xFB]
  | .stop => [0xFC]
  | .activeSensing => [0xFE]
  | .reset => [0xFF]

/-! ## The BLE-MIDI packet (`src/trouble_midi.rs`) -/

/-- `trouble_host::types::gatt_traits::FromGattError` (external error type
returned by `from_gatt`). -/
inductive FromGattError where
  | invalidLength
  | invalidCharacter
deriving DecidableEq, Repr

/-- `BleMidiPacket<CAP>` (`trouble_midi.rs` lines 34-37): a `CAP`-byte buffer
(`buffer : [u8; CAP]`, here a list of exactly `CAP` bytes) and a length. -/
structure BleMidiPacket where
  buffer : List Nat
  len : Nat
deriving DecidableEq, Repr

namespace BleMidiPacket

/-- `MIN_SIZE = 3`: header + timestamp + single MIDI status byte
(`trouble_midi.rs` line 44). -/
def MIN_SIZE : Nat := 3

/-- `MIN_CAP = 5`: header + timestamp + MIDI status byte + 2 data bytes
(`trouble_midi.rs` line 45); enforced by `const { assert!(CAP >= MIN_CAP) }`. -/
def MIN_CAP : Nat := 5

/-- A bounds-checked single-byte store `buffer[i] = v`; `none` models the
runtime panic of an out-of-bounds index. -/
def setAt (l : List Nat) (i v : Nat) : Option (List Nat) :=
  if i < l.length then some (l.set i v) else none

/-- A bounds-checked block store of `src` at the start of `dst` (the writes
`render_slice` performs into `&mut buffer[2..]`); `none` models the runtime
panic of writing past the end of the slice. -/
def writeList (dst src : List Nat) : Option (List Nat) :=
  if src.length ≤ dst.length then some (src ++ dst.drop src.length) else none

/-- `BleMidiPacket::<CAP>::add_timestamped` followed by `build()`
(`trouble_midi.rs` lines 47-78 and 126-128).  `millis` is the raw millisecond
count; `as_timestamp` truncates it to `u16` (`Instant::as_millis() as u16`,
lines 28-32).  `header = 0x80 | ((millis >> 7) as u8 & 0x3F)` and
`timestamp = 0x80 | (millis as u8 & 0x7F)`; the message bytes are rendered
into `buffer[2..]` and `len = 2 +` the rendered length.  All buffer writes
are bounds-checked, so the result is `none` exactly when a write would
panic at runtime. -/
def add_timestamped (CAP millis : Nat) (msg : MidiMessage) : Option BleMidiPacket :=
  let m := millis % 2 ^ 16
  let header := 0x80 ||| (((m >>> 7) % 2 ^ 8) &&& 0x3F)
  let tsByte := 0x80 ||| ((m % 2 ^ 8) &&& 0x7F)
  (setAt (List.replicate CAP 0) 0 header).bind fun b0 =>
    (setAt b0 1 tsByte).bind fun b1 =>
      (writeList (b1.drop 2) msg.renderBytes).map fun tail =>
        { buffer := b1.take 2 ++ tail, len := 2 + msg.renderBytes.length }

/-- `AsGatt::as_gatt` (`trouble_midi.rs` lines 97-99): `&self.buffer[..self.len]`. -/
def as_gatt (p : BleMidiPacket) : List Nat :=
  p.buffer.take p.len

/-- `FromGatt::from_gatt` (`trouble_midi.rs` lines 102-116): reject when
`data.len() < MIN_SIZE || data.len() > CAP`, otherwise copy the bytes verbatim
into a zeroed `CAP`-byte buffer without parsing them. -/
def from_gatt (CAP : Nat) (data : List Nat) : Except FromGattError BleMidiPacket :=
  if data.length < MIN_SIZE ∨ CAP < data.length then
    .error .invalidLength
  else
    .ok { buffer := data ++ List.replicate (CAP - data.length) 0, len := data.length }

end BleMidiPacket

/-- The packet built per hit by `notify_midi_events_task` (`ble.rs` lines
162-171): `MidiMessage::NoteOn(Channel::new(9), note.into(), Value7::new(100))`
timestamped with the hit instant, in the service's `BleMidiPacket<5>`
(`trouble_midi.rs` line 9). -/
def notifyPacket (millis : Nat) (note : DrumNote) : Option BleMidiPacket :=
  BleMidiPacket.add_timestamped 5 millis (.noteOn 9 note.toU8 100)

/-! ## The per-round pad state machine (`src/tasks/gpio.rs`)

`watch_gpios_task` runs rounds; within a round the ten `watch_pin_for_hits`
routines share `SharedPinsState { pin_high_count: Cell<u8>,
is_pedal_hi_hat_pressed: Cell<bool> }` (`gpio.rs` lines 89-92).  Under the
single-core cooperative scheduler each stable edge is processed atomically, so
a round is an interleaved sequence of per-pad stable edges; `stepRound` is the
effect of one such edge, transcribed from `watch_pin_for_hits` (`gpio.rs`
lines 94-142).  The set `highPads` records which pads are currently
stable-high (the physical levels); `hits` records the notes pushed into the
hit-event channel (timestamps abstracted away). -/

/-- The shared round state plus the physical pad levels and the emitted hits.
`pin_high_count` is the `Cell<u8>` counter; `ended` records that some routine
hit the `break` (`gpio.rs` line 121) that ends the round. -/
structure RoundState (n : Nat) where
  highPads : Finset (Fin n)
  pin_high_count : Nat
  is_pedal_hi_hat_pressed : Bool
  hits : List DrumNote
  ended : Bool
deriving DecidableEq

/-- A stable edge on pad `p`: `rise` is a return from `wait_for_stable_high`,
`fall` a return from `wait_for_stable_low`. -/
inductive PadEvent (n : Nat) where
  | rise (p : Fin n)
  | fall (p : Fin n)
deriving DecidableEq

/-- The state at the start of a round (`gpio.rs` lines 69-72):
`pin_high_count: Cell::new(0), is_pedal_hi_hat_pressed: Cell::new(false)`,
all pads low, nothing emitted. -/
def initRound (n : Nat) : RoundState n :=
  { highPads := ∅
    pin_high_count := 0
    is_pedal_hi_hat_pressed := false
    hits := []
    ended := false }

/-- One stable edge of `watch_pin_for_hits` (`gpio.rs` lines 100-141).
On a stable rising edge: increment the counter, and clear the pedal flag if
this pad is `PedalHiHat` (lines 102-110).  On a stable falling edge: decrement
the counter; if it reached 0, `break` — end the round with no further effect
(lines 117-122); otherwise set the pedal flag if this pad is `PedalHiHat`
(lines 124-126), reclassify `OpenHiHat` to `ClosedHiHat` when the pedal flag
is set (lines 128-132), and push the hit (line 135). -/
def stepRound (roleOf : Fin n → DrumNote) (s : RoundState n) (e : PadEvent n) :
    RoundState n :=
  match e with
  | .rise p =>
    { s with
      highPads := insert p s.highPads
      pin_high_count := s.pin_high_count + 1
      is_pedal_hi_hat_pressed :=
        if roleOf p = DrumNote.PedalHiHat then false else s.is_pedal_hi_hat_pressed }
  | .fall p =>
    let count := s.pin_high_count - 1
    if count = 0 then
      { s with
        highPads := s.highPads.erase p
        pin_high_count := count
        ended := true }
    else
      let pedal :=
        if roleOf p = DrumNote.PedalHiHat then true else s.is_pedal_hi_hat_pressed
      let note :=
        if roleOf p = DrumNote.OpenHiHat ∧ pedal = true then DrumNote.ClosedHiHat
        else roleOf p
      { s with
        highPads := s.highPads.erase p
        pin_high_count := count
        is_pedal_hi_hat_pressed := pedal
        hits := s.hits ++ [note] }

/-- Run a sequence of stable edges. -/
def runRound (roleOf : Fin n → DrumNote) (s : RoundState n) :
    List (PadEvent n) → RoundState n
  | [] => s
  | e :: es => runRound roleOf (stepRound roleOf s e) es

/-- A stable edge is physically possible in state `s` when the round has not
ended and the pad alternates rise-then-fall: a pad can only rise from low and
fall from high. -/
def validEventB (s : RoundState n) : PadEvent n → Bool
  | .rise p => !s.ended && !(decide (p ∈ s.highPads))
  | .fall p => !s.ended && decide (p ∈ s.highPads)

/-- A physically possible sequence of stable edges from state `s`. -/
def validTraceB (roleOf : Fin n → DrumNote) (s : RoundState n) :
    List (PadEvent n) → Bool
  | [] => true
  | e :: es => validEventB s e && validTraceB roleOf (stepRound roleOf s e) es

/-! ## The hit-event channel (`src/tasks/gpio.rs`, `ForceSend`)

`HitEventsChannel` is a bounded channel of capacity 16 (`gpio.rs` line 43),
modelled as the list of queued elements, oldest first, of length at most 16. -/

/-- The channel capacity (`Channel<NoopRawMutex, (Instant, DrumNote), 16>`). -/
def CHANNEL_CAP : Nat := 16

/-- `Channel::try_send`: fails with `TrySendError::Full`, handing the message
back, exactly when the channel is full; otherwise appends the message. -/
def trySend (q : List α) (m : α) : Except α (List α) :=
  if q.length < CHANNEL_CAP then .ok (q ++ [m]) else .error m

/-- `Channel::try_receive`: pop the oldest entry when there is one. -/
def tryReceive (q : List α) : Option α × List α :=
  (q.head?, q.tail)

/-- `ForceSend::force_send` (`gpio.rs` lines 190-199): `while try_send fails
with Full(m) { message = m; let _ = try_receive(); }` — retry after evicting
the oldest entry.  No other task interleaves with the loop (single-core
cooperative scheduling with no await point inside it). -/
def forceSend (q : List α) (m : α) : List α :=
  match h : trySend q m with
  | .ok q' => q'
  | .error m' => forceSend (tryReceive q).2 m'
termination_by q.length
decreasing_by
  have hq : ¬q.length < CHANNEL_CAP := by
    intro hlt
    simp [trySend, hlt] at h
  simp only [tryReceive]
  cases q with
  | nil => simp [CHANNEL_CAP] at hq
  | cons a as => simp

/-! ## The noise-stability filter (`src/tasks/gpio.rs`, `WaitForStable`)

The raw pin signal is modelled as a list of maximal constant segments
`(level, duration in µs)`, consecutive segments having distinct levels.
`wait_for_stable_high` (`gpio.rs` lines 157-166) loops: await the raw level
going high, then race `wait_for_low` against a 150µs timer; if the level
reverses within the window the candidate segment is discarded and the wait
restarts, and only a segment that lasts the full window is accepted.  On the
segment model this returns the index of the first high segment whose duration
reaches `STABLE_DURATION`, and `none` if there is no such segment. -/

/-- `STABLE_DURATION = Duration::from_micros(150)` (`gpio.rs` line 155). -/
def STABLE_DURATION_MICROS : Nat := 150

/-- `wait_for_stable_high` on a segment trace: the index of the accepted
segment, `none` when the wait never returns within the trace. -/
def waitForStableHigh : List (Bool × Nat) → Option Nat
  | [] => none
  | (lvl, d) :: rest =>
    if lvl = true ∧ STABLE_DURATION_MICROS ≤ d then some 0
    else (waitForStableHigh rest).map (· + 1)

/-- `wait_for_stable_low` (`gpio.rs` lines 168-178), symmetric to
`wait_for_stable_high`. -/
def waitForStableLow : List (Bool × Nat) → Option Nat
  | [] => none
  | (lvl, d) :: rest =>
    if lvl = false ∧ STABLE_DURATION_MICROS ≤ d then some 0
    else (waitForStableLow rest).map (· + 1)

/-! ## The link manager (`src/tasks/ble.rs`)

The sensor-gated service loop of `peripheral_run` (`ble.rs` lines 52-68) with
`midi_service_task` (lines 78-112), abstracted as a state machine over the
suspension points of the async control flow.  The phases: `gatedIdle` is the
outer loop blocked in `wait_for_status(On)` (line 54); `advertising` is
`midi_service_task` inside `with_timeout(60s, advertise_and_connect ...)`
(lines 87-94); `connectedPhase` is the `select(gatt_events_task,
notify_midi_events_task)` (lines 103-106). -/

/-- The advertising window: `Duration::from_secs(60)` (`ble.rs` line 88). -/
def ADVERTISE_TIMEOUT_SECS : Nat := 60

inductive LMPhase where
  | gatedIdle
  | advertising
  | connectedPhase
  | fatal
deriving DecidableEq, Repr

/-- Link-manager state: the phase, plus how many connected sessions have ever
been started (each acceptance is a fresh `GattConnection`). -/
structure LMState where
  phase : LMPhase
  sessionsStarted : Nat
deriving DecidableEq, Repr

/-- The events the link manager reacts to at its suspension points:
a sensors-status signal (`On`/`Off`), expiry of the 60s advertising window,
an accepted connection, the end of a connected session (disconnect event or
notify failure), and a failure of the always-running host runner. -/
inductive LMEvent where
  | statusOn
  | statusOff
  | advTimeout
  | advAccepted
  | sessionEnded
  | hostFailure
deriving DecidableEq, Repr

/-- One transition of the link manager, transcribed from `ble.rs`:
* `gatedIdle` + `statusOn` → `advertising`: `wait_for_status(On)` returns and
  the loop enters `midi_service_task` (lines 54-63).
* `advertising` + `advAccepted` → `connectedPhase`, with a fresh session:
  the `while let Ok(Either::First(_))` body runs (lines 87-108).
* `advertising` + `advTimeout` → `gatedIdle`: `with_timeout` returns `Err`,
  the `while let` exits, the timeout is logged (line 111), `midi_service_task`
  returns, the outer `select` finishes and the loop re-checks the status
  (lines 53-54) — not fatal.
* `advertising`/`connectedPhase` + `statusOff` → `gatedIdle`: the outer
  `select(midi_service_task, wait_for_status(Off))` completes on its second
  arm, cancelling `midi_service_task` immediately, whatever it was doing
  (lines 56-66).
* `connectedPhase` + `sessionEnded` → `advertising`: either duty finishing
  ends the `select` (line 106) and the `while let` loops back to advertise.
* any phase + `hostFailure` → `fatal`: `unwrap!` in `host_runner_task`
  (lines 72-76). -/
def linkStep (s : LMState) (e : LMEvent) : LMState :=
  match e with
  | .hostFailure => { s with phase := .fatal }
  | _ =>
    match s.phase, e with
    | .gatedIdle, .statusOn => { s with phase := .advertising }
    | .gatedIdle, _ => s
    | .advertising, .advAccepted =>
      { phase := .connectedPhase, sessionsStarted := s.sessionsStarted + 1 }
    | .advertising, .advTimeout => { s with phase := .gatedIdle }
    | .advertising, .statusOff => { s with phase := .gatedIdle }
    | .advertising, _ => s
    | .connectedPhase, .statusOff => { s with phase := .gatedIdle }
    | .connectedPhase, .sessionEnded => { s with phase := .advertising }
    | .connectedPhase, _ => s
    | .fatal, _ => s

/-! ## Theorems -/


theorem and_mask_mod_256 (x m : Nat) (hm : m ≤ 8) :
    x % 2 ^ 8 &&& (2 ^ m - 1) = x &&& (2 ^ m - 1) := by
  rw [Nat.and_pow_two_sub_one_eq_mod, Nat.and_pow_two_sub_one_eq_mod,
    Nat.mod_mod_of_dvd _ (pow_dvd_pow 2 hm)]

theorem and_63_mod_256 (x : Nat) : x % 256 &&& 63 = x &&& 63 := by
  have h := and_mask_mod_256 x 6 (by norm_num)
  norm_num at h
  exact h

theorem and_127_mod_256 (x : Nat) : x % 256 &&& 127 = x &&& 127 := by
  have h := and_mask_mod_256 x 7 (by norm_num)
  norm_num at h
  exact h

theorem DrumNote.toU8_and_127 (d : DrumNote) : d.toU8 &&& 127 = d.toU8 := by
  cases d <;> rfl

/-- C1: for every hit, the outgoing characteristic payload equals
`[0x80|((ms>>7)&0x3F), 0x80|(ms&0x7F), 0x90|9, note, 100]`, where `ms` is the
16-bit millisecond timestamp and `note` the pad's MIDI note number; in
particular (see the witness) encoding `(millis=1000, NoteOn(channel=9,
note=36, velocity=100))` yields exactly `{0x87, 0xE8, 0x99, 0x24, 0x64}`. -/
theorem c1_hit_payload (ms : Nat) (h : ms < 2 ^ 16) (note : DrumNote) :
    (notifyPacket ms note).map BleMidiPacket.as_gatt =
      some [0x80 ||| (ms >>> 7 &&& 0x3F), 0x80 ||| (ms &&& 0x7F),
        0x90 ||| 9, note.toU8, 100] := by
  unfold notifyPacket BleMidiPacket.add_timestamped
  rw [Nat.mod_eq_of_lt h]
  simp [BleMidiPacket.setAt, BleMidiPacket.writeList, MidiMessage.renderBytes,
    BleMidiPacket.as_gatt, List.replicate, List.set]
  norm_num [and_63_mod_256, and_127_mod_256, DrumNote.toU8_and_127]
  decide

theorem c1_witness :
    (notifyPacket 1000 DrumNote.BassDrum).map BleMidiPacket.as_gatt =
      some [0x87, 0xE8, 0x99, 0x24, 0x64] :=
  (c1_hit_payload 1000 (by decide) DrumNote.BassDrum).trans (by decide)


/-- C7: `from_gatt(data)` returns an `InvalidLength` error if and only if
`data.len() < 3` or `data.len() > CAP`; otherwise it succeeds and stores the
bytes verbatim, so `as_gatt` of the resulting packet equals the input slice
exactly, with no interpretation of the contents. -/
theorem c7_from_gatt_validation (CAP : Nat) (data : List Nat) :
    (BleMidiPacket.from_gatt CAP data = .error .invalidLength ↔
      data.length < BleMidiPacket.MIN_SIZE ∨ CAP < data.length) ∧
    (BleMidiPacket.MIN_SIZE ≤ data.length → data.length ≤ CAP →
      ∃ p, BleMidiPacket.from_gatt CAP data = .ok p ∧ p.as_gatt = data) := by
  unfold BleMidiPacket.from_gatt
  by_cases hc : data.length < BleMidiPacket.MIN_SIZE ∨ CAP < data.length
  · rw [if_pos hc]
    refine ⟨by simp [hc], fun h1 h2 => ?_⟩
    rcases hc with hc | hc <;> omega
  · rw [if_neg hc]
    refine ⟨by simp [hc], fun h1 h2 => ?_⟩
    exact ⟨_, rfl, by simp [BleMidiPacket.as_gatt, List.take_left']⟩

theorem c7_witness :
    ∃ p, BleMidiPacket.from_gatt 5 [128, 128, 255] = .ok p ∧
      p.as_gatt = [128, 128, 255] :=
  (c7_from_gatt_validation 5 [128, 128, 255]).2 (by decide) (by decide)

theorem MidiMessage.renderBytes_length_bounds (msg : MidiMessage) :
    1 ≤ msg.renderBytes.length ∧ msg.renderBytes.length ≤ 3 := by
  cases msg <;> simp [MidiMessage.renderBytes]

/-- C8: for every `CAP ≥ MIN_CAP = 5` (the bound checked by the explicit
compile-time assert), every timestamp and every single `MidiMessage`,
`add_timestamped` never fails at runtime (every buffer write is in bounds,
so the checked model returns `some`) and the resulting packet satisfies
`3 = MIN_SIZE ≤ len ≤ CAP`. -/
theorem c8_add_timestamped_total (CAP millis : Nat) (msg : MidiMessage)
    (h : BleMidiPacket.MIN_CAP ≤ CAP) :
    ∃ p, BleMidiPacket.add_timestamped CAP millis msg = some p ∧
      BleMidiPacket.MIN_SIZE ≤ p.len ∧ p.len ≤ CAP := by
  obtain ⟨hb1, hb3⟩ := MidiMessage.renderBytes_length_bounds msg
  have hcap : 5 ≤ CAP := h
  unfold BleMidiPacket.add_timestamped
  simp only [BleMidiPacket.setAt, BleMidiPacket.writeList, List.length_replicate,
    List.length_set, List.length_drop]
  rw [if_pos (by omega), Option.some_bind,
    if_pos (by simp only [List.length_set, List.length_replicate]; omega),
    Option.some_bind,
    if_pos (by simp only [List.length_drop, List.length_set, List.length_replicate]; omega),
    Option.map_some']
  exact ⟨_, rfl, by simp [BleMidiPacket.MIN_SIZE]; omega, by simp; omega⟩

theorem c8_witness :
    BleMidiPacket.MIN_CAP ≤ 5 ∧
      ∃ p, BleMidiPacket.add_timestamped 5 0 MidiMessage.reset = some p ∧
        BleMidiPacket.MIN_SIZE ≤ p.len ∧ p.len ≤ 5 :=
  ⟨by decide, c8_add_timestamped_total 5 0 MidiMessage.reset (by decide)⟩


theorem forceSend_spec {α : Type} (q : List α) (m : α) :
    forceSend q m =
      if q.length < CHANNEL_CAP then q ++ [m] else forceSend q.tail m := by
  rw [forceSend.eq_def]
  split
  · next q' heq =>
    rw [trySend] at heq
    split at heq
    · next hlt => rw [if_pos hlt]; exact (Except.ok.injEq .. ▸ heq).symm ▸ rfl
    · exact absurd heq (by simp)
  · next m' heq =>
    rw [trySend] at heq
    split at heq
    · exact absurd heq (by simp)
    · next hlt =>
      rw [if_neg hlt, tryReceive]
      cases heq
      rfl

theorem forceSend_full {α : Type} (q : List α) (m : α) (hq : q.length ≤ CHANNEL_CAP) :
    forceSend q m = if q.length < CHANNEL_CAP then q ++ [m] else q.tail ++ [m] := by
  rw [forceSend_spec]
  by_cases hlt : q.length < CHANNEL_CAP
  · rw [if_pos hlt, if_pos hlt]
  · rw [if_neg hlt, if_neg hlt, forceSend_spec,
      if_pos (by
        rw [List.length_tail]
        simp only [CHANNEL_CAP] at hlt hq ⊢
        omega)]

/-- C3: `force_send(event)` returns without blocking — `forceSend` is a total
function whose retry loop needs at most one eviction when no other task
interleaves: on a non-full queue it just appends, and on a full
(16 = CHANNEL_CAP entry) queue the result is `q.drop 1 ++ [m]` — the new event
is present, exactly the previously-oldest entry has been evicted, and the
surviving entries keep their relative order. -/
theorem c3_force_send {α : Type} (q : List α) (m : α) (hq : q.length ≤ CHANNEL_CAP) :
    (q.length < CHANNEL_CAP → forceSend q m = q ++ [m]) ∧
    (q.length = CHANNEL_CAP →
      forceSend q m = q.drop 1 ++ [m] ∧
      m ∈ forceSend q m ∧
      (forceSend q m).length = CHANNEL_CAP) := by
  have hs := forceSend_full q m hq
  constructor
  · intro hlt
    rwa [if_pos hlt] at hs
  · intro hfull
    rw [if_neg (by omega)] at hs
    have htail : q.tail = q.drop 1 := by cases q <;> simp
    refine ⟨by rw [hs, htail], by rw [hs]; simp, ?_⟩
    rw [hs]
    cases q with
    | nil => simp [CHANNEL_CAP] at hfull
    | cons a as => simp at hfull ⊢; omega

theorem c3_witness :
    (List.range 16).length = CHANNEL_CAP ∧
      forceSend (List.range 16) 99 = (List.range 16).drop 1 ++ [99] :=
  ⟨by decide, ((c3_force_send (List.range 16) 99 (by decide)).2 (by decide)).1⟩


/-- The shared-counter invariant: `pin_high_count` equals the number of pads
currently stable-high. -/
def countInv (s : RoundState n) : Prop :=
  s.pin_high_count = s.highPads.card

theorem stepRound_fall_count (roleOf : Fin n → DrumNote) (s : RoundState n) (p : Fin n) :
    (stepRound roleOf s (.fall p)).pin_high_count = s.pin_high_count - 1 ∧
    (stepRound roleOf s (.fall p)).highPads = s.highPads.erase p := by
  simp only [stepRound]
  split <;> simp

theorem countInv_step (roleOf : Fin n → DrumNote) (s : RoundState n) (e : PadEvent n)
    (hv : validEventB s e = true) (hinv : countInv s) :
    countInv (stepRound roleOf s e) := by
  cases e with
  | rise p =>
    simp only [validEventB, Bool.and_eq_true, Bool.not_eq_true', decide_eq_false_iff_not] at hv
    rw [countInv] at hinv
    simp only [countInv, stepRound, Finset.card_insert_of_not_mem hv.2]
    omega
  | fall p =>
    simp only [validEventB, Bool.and_eq_true, decide_eq_true_eq] at hv
    obtain ⟨h1, h2⟩ := stepRound_fall_count roleOf s p
    rw [countInv, h1, h2, Finset.card_erase_of_mem hv.2, hinv]

theorem validTraceB_append (roleOf : Fin n → DrumNote) (s : RoundState n)
    (es fs : List (PadEvent n)) :
    validTraceB roleOf s (es ++ fs) =
      (validTraceB roleOf s es && validTraceB roleOf (runRound roleOf s es) fs) := by
  induction es generalizing s with
  | nil => simp [validTraceB, runRound]
  | cons e es ih =>
    simp only [List.cons_append, validTraceB, runRound, List.append_eq]
    rw [ih, Bool.and_assoc]

theorem countInv_run (roleOf : Fin n → DrumNote) (s : RoundState n)
    (es : List (PadEvent n)) (hv : validTraceB roleOf s es = true) (hinv : countInv s) :
    countInv (runRound roleOf s es) := by
  induction es generalizing s with
  | nil => exact hinv
  | cons e es ih =>
    simp only [validTraceB, Bool.and_eq_true] at hv
    exact ih _ hv.2 (countInv_step roleOf s e hv.1 hinv)

/-- C2: for any physically possible sequence of per-pad stable edges (each
pad alternating rise then fall starting from low), the shared
`pin_high_count` equals, after every prefix, the number of pads currently
stable-high; before every fall event the counter is at least 1 (so the `u8`
decrement never underflows); and it is 0 exactly when no pad is
stable-high, i.e. when the last active pad has released. -/
theorem c2_active_count {n : Nat} (roleOf : Fin n → DrumNote) (es : List (PadEvent n))
    (hv : validTraceB roleOf (initRound n) es = true) :
    (∀ pre suf, es = pre ++ suf →
      (runRound roleOf (initRound n) pre).pin_high_count =
        (runRound roleOf (initRound n) pre).highPads.card) ∧
    (∀ pre p suf, es = pre ++ PadEvent.fall p :: suf →
      1 ≤ (runRound roleOf (initRound n) pre).pin_high_count) ∧
    ((runRound roleOf (initRound n) es).pin_high_count = 0 ↔
      (runRound roleOf (initRound n) es).highPads = ∅) := by
  have hinit : countInv (initRound n) := by simp [countInv, initRound]
  have hpre : ∀ pre suf, es = pre ++ suf → countInv (runRound roleOf (initRound n) pre) := by
    intro pre suf heq
    subst heq
    rw [validTraceB_append, Bool.and_eq_true] at hv
    exact countInv_run roleOf _ pre hv.1 hinit
  refine ⟨fun pre suf heq => hpre pre suf heq, ?_, ?_⟩
  · intro pre p suf heq
    have hc := hpre pre (PadEvent.fall p :: suf) heq
    subst heq
    rw [validTraceB_append, Bool.and_eq_true] at hv
    have hv2 := hv.2
    simp only [validTraceB, Bool.and_eq_true] at hv2
    have hmem : p ∈ (runRound roleOf (initRound n) pre).highPads := by
      have := hv2.1
      simp only [validEventB, Bool.and_eq_true, decide_eq_true_eq] at this
      exact this.2
    rw [countInv] at hc
    have := Finset.card_pos.mpr ⟨p, hmem⟩
    omega
  · have hfin := hpre es [] (by simp)
    simp only [List.append_nil] at hfin
    rw [countInv] at hfin
    rw [hfin, Finset.card_eq_zero]

theorem c2_witness :
    validTraceB (fun _ => DrumNote.Snare) (initRound 2)
      [PadEvent.rise 0, PadEvent.rise 1, PadEvent.fall 0] = true ∧
    ((∀ pre suf,
        [PadEvent.rise 0, PadEvent.rise 1, PadEvent.fall 0] = pre ++ suf →
        (runRound (fun _ => DrumNote.Snare) (initRound 2) pre).pin_high_count =
          (runRound (fun _ => DrumNote.Snare) (initRound 2) pre).highPads.card) ∧
      (∀ pre p suf,
        [PadEvent.rise 0, PadEvent.rise 1, PadEvent.fall 0] =
            pre ++ PadEvent.fall p :: suf →
        1 ≤ (runRound (fun _ => DrumNote.Snare) (initRound 2) pre).pin_high_count) ∧
      ((runRound (fun _ => DrumNote.Snare) (initRound 2)
            [PadEvent.rise 0, PadEvent.rise 1, PadEvent.fall 0]).pin_high_count = 0 ↔
        (runRound (fun _ => DrumNote.Snare) (initRound 2)
            [PadEvent.rise 0, PadEvent.rise 1, PadEvent.fall 0]).highPads = ∅)) :=
  ⟨by decide, c2_active_count (fun _ => DrumNote.Snare) _ (by decide)⟩


/-- C4: whenever a pad takes a stable falling edge and a `HitEvent` is
emitted (at least one other pad still high, i.e. `pin_high_count ≥ 2`), the
emitted note for an `OpenHiHat` pad is `ClosedHiHat` exactly when
`is_pedal_hi_hat_pressed` is set at that instant and `OpenHiHat` otherwise,
and the emitted note of every other pad is its own role, never
reclassified. -/
theorem c4_hi_hat_reclassification (roleOf : Fin n → DrumNote) (s : RoundState n)
    (p : Fin n) (hcount : 2 ≤ s.pin_high_count) :
    (roleOf p = DrumNote.OpenHiHat →
      (stepRound roleOf s (.fall p)).hits =
        s.hits ++ [if s.is_pedal_hi_hat_pressed then DrumNote.ClosedHiHat
          else DrumNote.OpenHiHat]) ∧
    (roleOf p ≠ DrumNote.OpenHiHat →
      (stepRound roleOf s (.fall p)).hits = s.hits ++ [roleOf p]) := by
  have hc : ¬(s.pin_high_count - 1 = 0) := by omega
  constructor
  · intro hrole
    have hne : roleOf p ≠ DrumNote.PedalHiHat := by rw [hrole]; decide
    simp only [stepRound, if_neg hc, if_neg hne, hrole]
    cases hpe : s.is_pedal_hi_hat_pressed <;> simp
  · intro hrole
    by_cases hped : roleOf p = DrumNote.PedalHiHat
    · simp only [stepRound, if_neg hc, if_pos hped]
      simp [hrole]
    · simp only [stepRound, if_neg hc, if_neg hped]
      cases hpe : s.is_pedal_hi_hat_pressed <;> simp [hrole]

theorem c4_witness :
    2 ≤ (⟨{0, 1}, 2, true, [], false⟩ : RoundState 2).pin_high_count ∧
      (stepRound (fun q => if q = 0 then DrumNote.OpenHiHat else DrumNote.Snare)
          (⟨{0, 1}, 2, true, [], false⟩ : RoundState 2) (.fall 0)).hits =
        [] ++ [DrumNote.ClosedHiHat] :=
  ⟨by decide, by
    have h := (c4_hi_hat_reclassification
      (fun q => if q = 0 then DrumNote.OpenHiHat else DrumNote.Snare)
      (⟨{0, 1}, 2, true, [], false⟩ : RoundState 2) 0 (by decide)).1 (by decide)
    simpa using h⟩

/-- C10: the stable falling edge whose decrement brings `pin_high_count` to 0
(equivalently, the falling pad was the only stable-high pad) terminates the
pad's routine — `ended` becomes true — without enqueuing any `HitEvent` and
without touching `is_pedal_hi_hat_pressed`; consequently a release is
reported as a hit exactly when at least one other pad is still stable-high
at that instant. -/
theorem c10_last_release (roleOf : Fin n → DrumNote) (s : RoundState n) (p : Fin n)
    (hp : p ∈ s.highPads) (hinv : s.pin_high_count = s.highPads.card)
    (hend : s.ended = false) :
    ((stepRound roleOf s (.fall p)).ended = true ↔ s.highPads = {p}) ∧
    (s.highPads = {p} →
      (stepRound roleOf s (.fall p)).hits = s.hits ∧
      (stepRound roleOf s (.fall p)).is_pedal_hi_hat_pressed =
        s.is_pedal_hi_hat_pressed ∧
      (stepRound roleOf s (.fall p)).pin_high_count = 0) ∧
    ((stepRound roleOf s (.fall p)).hits ≠ s.hits ↔ ∃ q ∈ s.highPads, q ≠ p) := by
  have hcardpos : 0 < s.highPads.card := Finset.card_pos.mpr ⟨p, hp⟩
  have hsingleton : s.pin_high_count - 1 = 0 ↔ s.highPads = {p} := by
    rw [hinv]
    constructor
    · intro h0
      have hcard : s.highPads.card = 1 := by omega
      obtain ⟨a, ha⟩ := Finset.card_eq_one.mp hcard
      rw [ha] at hp
      rw [Finset.mem_singleton] at hp
      rw [ha, hp]
    · intro hs
      rw [hs, Finset.card_singleton]
  refine ⟨?_, ?_, ?_⟩
  · rw [← hsingleton]
    by_cases h0 : s.pin_high_count - 1 = 0
    · simp only [stepRound, if_pos h0]
      simp [h0]
    · simp only [stepRound, if_neg h0]
      simp [h0, hend]
  · intro hs
    have h0 : s.pin_high_count - 1 = 0 := hsingleton.mpr hs
    simp only [stepRound, if_pos h0]
    exact ⟨trivial, trivial, h0⟩
  · by_cases h0 : s.pin_high_count - 1 = 0
    · simp only [stepRound, if_pos h0]
      constructor
      · intro habs
        exact absurd rfl habs
      · rintro ⟨q, hq, hqp⟩
        have hs := hsingleton.mp h0
        rw [hs, Finset.mem_singleton] at hq
        exact absurd hq hqp
    · simp only [stepRound, if_neg h0]
      constructor
      · intro _
        have hcard2 : 1 < s.highPads.card := by omega
        exact Finset.exists_ne_of_one_lt_card hcard2 p
      · intro _
        simp

theorem c10_witness :
    ((0 : Fin 2) ∈ ({0} : Finset (Fin 2)) ∧
        (⟨{0}, 1, false, [DrumNote.Snare], false⟩ : RoundState 2).pin_high_count =
          ({0} : Finset (Fin 2)).card) ∧
      (stepRound (fun _ => DrumNote.Snare)
            (⟨{0}, 1, false, [DrumNote.Snare], false⟩ : RoundState 2) (.fall 0)).ended = true ∧
        (stepRound (fun _ => DrumNote.Snare)
            (⟨{0}, 1, false, [DrumNote.Snare], false⟩ : RoundState 2) (.fall 0)).hits =
          [DrumNote.Snare] := by
  have h := c10_last_release (fun _ => DrumNote.Snare)
    (⟨{0}, 1, false, [DrumNote.Snare], false⟩ : RoundState 2) 0 (by decide) (by decide) rfl
  exact ⟨⟨by decide, by decide⟩, h.1.mpr (by decide), (h.2.1 (by decide)).1⟩


theorem waitForStableHigh_some_iff (sig : List (Bool × Nat)) (i : Nat)
    (h : waitForStableHigh sig = some i) :
    (∃ seg, sig.get? i = some seg ∧ seg.1 = true ∧ STABLE_DURATION_MICROS ≤ seg.2) ∧
      ∀ j, j < i → ∀ seg2, sig.get? j = some seg2 → seg2.1 = true →
        seg2.2 < STABLE_DURATION_MICROS := by
  induction sig generalizing i with
  | nil => simp [waitForStableHigh] at h
  | cons sd rest ih =>
    obtain ⟨lvl, d⟩ := sd
    rw [waitForStableHigh] at h
    by_cases hc : lvl = true ∧ STABLE_DURATION_MICROS ≤ d
    · rw [if_pos hc] at h
      cases h
      exact ⟨⟨(lvl, d), rfl, hc.1, hc.2⟩, fun j hj => absurd hj (by omega)⟩
    · rw [if_neg hc] at h
      obtain ⟨i', hi', rfl⟩ := Option.map_eq_some'.mp h
      obtain ⟨hex, hall⟩ := ih i' hi'
      refine ⟨by simpa using hex, ?_⟩
      intro j hj seg2 hseg2 htrue
      cases j with
      | zero =>
        simp only [List.get?] at hseg2
        cases hseg2
        have h1 : lvl = true := htrue
        show d < STABLE_DURATION_MICROS
        rw [h1] at hc
        simp only [true_and] at hc
        omega
      | succ j2 =>
        exact hall j2 (by omega) seg2 (by simpa using hseg2) htrue

theorem waitForStableHigh_none (sig : List (Bool × Nat))
    (h : ∀ seg ∈ sig, seg.1 = true → seg.2 < STABLE_DURATION_MICROS) :
    waitForStableHigh sig = none := by
  induction sig with
  | nil => rfl
  | cons sd rest ih =>
    obtain ⟨lvl, d⟩ := sd
    rw [waitForStableHigh]
    rw [if_neg (by
      rintro ⟨h1, h2⟩
      have := h (lvl, d) (by simp) h1
      omega)]
    rw [ih fun seg hs => h seg (by simp [hs])]
    rfl

theorem waitForStableHigh_total (sig : List (Bool × Nat))
    (h : ∃ seg ∈ sig, seg.1 = true ∧ STABLE_DURATION_MICROS ≤ seg.2) :
    ∃ i, waitForStableHigh sig = some i := by
  induction sig with
  | nil => simp at h
  | cons sd rest ih =>
    obtain ⟨lvl, d⟩ := sd
    rw [waitForStableHigh]
    by_cases hc : lvl = true ∧ STABLE_DURATION_MICROS ≤ d
    · exact ⟨0, by rw [if_pos hc]⟩
    · rw [if_neg hc]
      obtain ⟨seg, hmem, hseg⟩ := h
      rcases List.mem_cons.mp hmem with heq | hmem2
      · rw [heq] at hseg
        exact absurd hseg hc
      · obtain ⟨i, hi⟩ := ih ⟨seg, hmem2, hseg⟩
        exact ⟨i + 1, by rw [hi]; rfl⟩

theorem waitForStableLow_some_iff (sig : List (Bool × Nat)) (i : Nat)
    (h : waitForStableLow sig = some i) :
    (∃ seg, sig.get? i = some seg ∧ seg.1 = false ∧ STABLE_DURATION_MICROS ≤ seg.2) ∧
      ∀ j, j < i → ∀ seg2, sig.get? j = some seg2 → seg2.1 = false →
        seg2.2 < STABLE_DURATION_MICROS := by
  induction sig generalizing i with
  | nil => simp [waitForStableLow] at h
  | cons sd rest ih =>
    obtain ⟨lvl, d⟩ := sd
    rw [waitForStableLow] at h
    by_cases hc : lvl = false ∧ STABLE_DURATION_MICROS ≤ d
    · rw [if_pos hc] at h
      cases h
      exact ⟨⟨(lvl, d), rfl, hc.1, hc.2⟩, fun j hj => absurd hj (by omega)⟩
    · rw [if_neg hc] at h
      obtain ⟨i', hi', rfl⟩ := Option.map_eq_some'.mp h
      obtain ⟨hex, hall⟩ := ih i' hi'
      refine ⟨by simpa using hex, ?_⟩
      intro j hj seg2 hseg2 hfalse
      cases j with
      | zero =>
        simp only [List.get?] at hseg2
        cases hseg2
        have h1 : lvl = false := hfalse
        show d < STABLE_DURATION_MICROS
        rw [h1] at hc
        simp only [true_and] at hc
        omega
      | succ j2 =>
        exact hall j2 (by omega) seg2 (by simpa using hseg2) hfalse

theorem waitForStableLow_none (sig : List (Bool × Nat))
    (h : ∀ seg ∈ sig, seg.1 = false → seg.2 < STABLE_DURATION_MICROS) :
    waitForStableLow sig = none := by
  induction sig with
  | nil => rfl
  | cons sd rest ih =>
    obtain ⟨lvl, d⟩ := sd
    rw [waitForStableLow]
    rw [if_neg (by
      rintro ⟨h1, h2⟩
      have := h (lvl, d) (by simp) h1
      omega)]
    rw [ih fun seg hs => h seg (by simp [hs])]
    rfl

theorem waitForStableLow_total (sig : List (Bool × Nat))
    (h : ∃ seg ∈ sig, seg.1 = false ∧ STABLE_DURATION_MICROS ≤ seg.2) :
    ∃ i, waitForStableLow sig = some i := by
  induction sig with
  | nil => simp at h
  | cons sd rest ih =>
    obtain ⟨lvl, d⟩ := sd
    rw [waitForStableLow]
    by_cases hc : lvl = false ∧ STABLE_DURATION_MICROS ≤ d
    · exact ⟨0, by rw [if_pos hc]⟩
    · rw [if_neg hc]
      obtain ⟨seg, hmem, hseg⟩ := h
      rcases List.mem_cons.mp hmem with heq | hmem2
      · rw [heq] at hseg
        exact absurd hseg hc
      · obtain ⟨i, hi⟩ := ih ⟨seg, hmem2, hseg⟩
        exact ⟨i + 1, by rw [hi]; rfl⟩

/-- C9: a raw level that reverses before the 150µs stability window elapses
is discarded as noise — every segment skipped by
`wait_for_stable_high`/`wait_for_stable_low` before the accepted one is
shorter than the window, a trace whose candidate segments are all shorter
than the window never returns (so no transition is accepted, the counter is
untouched and no hit is enqueued), the wait restarts after each reversal,
and a level persisting unchanged for the full window is accepted as a
genuine transition. -/
theorem c9_stability_filter (sig : List (Bool × Nat)) :
    (∀ i, waitForStableHigh sig = some i →
      (∃ seg, sig.get? i = some seg ∧ seg.1 = true ∧
        STABLE_DURATION_MICROS ≤ seg.2) ∧
      ∀ j, j < i → ∀ seg2, sig.get? j = some seg2 → seg2.1 = true →
        seg2.2 < STABLE_DURATION_MICROS) ∧
    ((∀ seg ∈ sig, seg.1 = true → seg.2 < STABLE_DURATION_MICROS) →
      waitForStableHigh sig = none) ∧
    ((∃ seg ∈ sig, seg.1 = true ∧ STABLE_DURATION_MICROS ≤ seg.2) →
      ∃ i, waitForStableHigh sig = some i) ∧
    (∀ i, waitForStableLow sig = some i →
      (∃ seg, sig.get? i = some seg ∧ seg.1 = false ∧
        STABLE_DURATION_MICROS ≤ seg.2) ∧
      ∀ j, j < i → ∀ seg2, sig.get? j = some seg2 → seg2.1 = false →
        seg2.2 < STABLE_DURATION_MICROS) ∧
    ((∀ seg ∈ sig, seg.1 = false → seg.2 < STABLE_DURATION_MICROS) →
      waitForStableLow sig = none) ∧
    ((∃ seg ∈ sig, seg.1 = false ∧ STABLE_DURATION_MICROS ≤ seg.2) →
      ∃ i, waitForStableLow sig = some i) :=
  ⟨fun i h => waitForStableHigh_some_iff sig i h,
    waitForStableHigh_none sig,
    waitForStableHigh_total sig,
    fun i h => waitForStableLow_some_iff sig i h,
    waitForStableLow_none sig,
    waitForStableLow_total sig⟩

theorem c9_witness :
    waitForStableHigh [(true, 100), (false, 300), (true, 149)] = none :=
  (c9_stability_filter [(true, 100), (false, 300), (true, 149)]).2.1 (by decide)

/-- C5: each advertising attempt is bounded by the 60-second
`with_timeout`; when no connection is accepted within the window the system
logs the expiry and returns to the status-gated loop — the timeout is not
fatal — and once the status is re-checked (`On` observed again) a fresh
advertising attempt starts. -/
theorem c5_advertising_timeout (s : LMState) (h : s.phase = .advertising) :
    ADVERTISE_TIMEOUT_SECS = 60 ∧
    (linkStep s .advTimeout).phase = .gatedIdle ∧
    (linkStep s .advTimeout).phase ≠ .fatal ∧
    (linkStep (linkStep s .advTimeout) .statusOn).phase = .advertising := by
  obtain ⟨ph, sess⟩ := s
  simp only at h
  subst h
  simp [linkStep, ADVERTISE_TIMEOUT_SECS]

theorem c5_witness :
    ADVERTISE_TIMEOUT_SECS = 60 ∧
    (linkStep ⟨.advertising, 0⟩ .advTimeout).phase = .gatedIdle ∧
    (linkStep ⟨.advertising, 0⟩ .advTimeout).phase ≠ .fatal ∧
    (linkStep (linkStep ⟨.advertising, 0⟩ .advTimeout) .statusOn).phase =
      .advertising :=
  c5_advertising_timeout ⟨.advertising, 0⟩ rfl

/-- C6: a sensors-status transition to `Off` during an active connection
immediately ends the Connected phase (the `midi_service_task` future is
cancelled by the outer `select`) without waiting for the peer to disconnect
and without consuming a `sessionEnded` event; a later `On` starts a
brand-new advertising cycle, and the only way into the Connected phase is
from Advertising by accepting a connection, which starts a strictly new
session. -/
theorem c6_status_off_ends_connection (s : LMState) (h : s.phase = .connectedPhase) :
    (linkStep s .statusOff).phase = .gatedIdle ∧
    (linkStep s .statusOff).sessionsStarted = s.sessionsStarted ∧
    (linkStep (linkStep s .statusOff) .statusOn).phase = .advertising ∧
    (∀ t : LMState, ∀ e : LMEvent, (linkStep t e).phase = .connectedPhase →
      t.phase = .connectedPhase ∨
        (t.phase = .advertising ∧ e = .advAccepted ∧
          (linkStep t e).sessionsStarted = t.sessionsStarted + 1)) := by
  obtain ⟨ph, sess⟩ := s
  simp only at h
  subst h
  refine ⟨by simp [linkStep], by simp [linkStep], by simp [linkStep], ?_⟩
  rintro ⟨tp, ts⟩ e
  cases tp <;> cases e <;> simp [linkStep]

theorem c6_witness :
    (linkStep ⟨.connectedPhase, 3⟩ .statusOff).phase = .gatedIdle ∧
    (linkStep ⟨.connectedPhase, 3⟩ .statusOff).sessionsStarted = 3 ∧
    (linkStep (linkStep ⟨.connectedPhase, 3⟩ .statusOff) .statusOn).phase =
      .advertising ∧
    (∀ t : LMState, ∀ e : LMEvent, (linkStep t e).phase = .connectedPhase →
      t.phase = .connectedPhase ∨
        (t.phase = .advertising ∧ e = .advAccepted ∧
          (linkStep t e).sessionsStarted = t.sessionsStarted + 1)) :=
  c6_status_off_ends_connection ⟨.connectedPhase, 3⟩ rfl

end EspDrumMidi
